import Mathlib

set_option maxHeartbeats 1000000
set_option maxRecDepth 2048

/-!
Verification of the zip-builder crate (sources: src/lib.rs, src/crc32.rs,
src/time.rs, src/error.rs).  Machine integers are modelled as Nat with
explicit reduction modulo powers of two where the Rust code truncates.
Byte strings are lists of Nat; a real byte satisfies b < 256.
-/

/-! ## CRC-32 (src/crc32.rs) -/

/-- Polynomial constant 0xedb88320 used by make_crc_table. -/
def crcPoly : Nat := 0xedb88320

/-- One iteration of the inner loop of make_crc_table:
if c and 1 is 1 then c becomes 0xedb88320 xor (c shifted right once),
otherwise c is shifted right once. -/
def crcBitStep (c : Nat) : Nat :=
  if c % 2 = 1 then crcPoly ^^^ (c / 2) else c / 2

/-- Value stored at index n of CRC_TABLE: eight iterations of the inner
loop of make_crc_table starting from n. -/
def crcTableEntry (n : Nat) : Nat := crcBitStep^[8] n

/-- The 256-entry constant table CRC_TABLE produced by make_crc_table. -/
def CRC_TABLE : List Nat := (List.range 256).map crcTableEntry

/-- Initial accumulator of CRC32, from the Default impl (0xFFFFFFFFu32). -/
def CRC32.init : Nat := 0xFFFFFFFF

/-- One step of the fold inside CRC32.write:
CRC_TABLE[(crc as u8 ^ byte) as usize] ^ (crc >> 8). -/
def CRC32.writeByte (crc b : Nat) : Nat :=
  CRC_TABLE.getD ((crc % 256) ^^^ b) 0 ^^^ crc / 256

/-- The method CRC32.write: folds writeByte over the byte string. -/
def CRC32.write (crc : Nat) (bytes : List Nat) : Nat :=
  bytes.foldl CRC32.writeByte crc

/-- The method CRC32.finish: bitwise complement of the 32-bit accumulator. -/
def CRC32.finish (crc : Nat) : Nat := crc ^^^ 0xFFFFFFFF

/-- Checksum of a whole byte string: finish (write (init) bytes). -/
def crc32 (bytes : List Nat) : Nat := CRC32.finish (CRC32.write CRC32.init bytes)

/-- Modelled from the spec: one bit-step of the reference reflected CRC-32
with generator polynomial 0xEDB88320. -/
def refStep (c : Nat) : Nat :=
  if c &&& 1 = 1 then 0xedb88320 ^^^ (c >>> 1) else c >>> 1

/-- Modelled from the spec: the reference algorithm absorbs one byte by
xoring it into the accumulator and performing eight bit-steps. -/
def refUpdateByte (crc b : Nat) : Nat := refStep^[8] (crc ^^^ b)

/-- Modelled from the spec: reference reflected CRC-32 of a byte string,
with initial value and final complement 0xFFFFFFFF. -/
def refCrc32 (bytes : List Nat) : Nat :=
  (bytes.foldl refUpdateByte 0xFFFFFFFF) ^^^ 0xFFFFFFFF

theorem refStep_eq_crcBitStep : refStep = crcBitStep := by
  funext c
  simp [refStep, crcBitStep, crcPoly, Nat.and_one_is_mod,
    Nat.shiftRight_eq_div_pow, Nat.pow_one]

theorem xor_mod_pow_two (a b k : Nat) :
    (a ^^^ b) % 2 ^ k = a % 2 ^ k ^^^ b % 2 ^ k := by
  apply Nat.eq_of_testBit_eq
  intro i
  by_cases h : i < k <;>
    simp [Nat.testBit_xor, Nat.testBit_mod_two_pow, h]

theorem xor_div_pow_two (a b k : Nat) :
    (a ^^^ b) / 2 ^ k = a / 2 ^ k ^^^ b / 2 ^ k := by
  apply Nat.eq_of_testBit_eq
  intro i
  simp [← Nat.shiftRight_eq_div_pow, Nat.testBit_shiftRight, Nat.testBit_xor]

theorem crcBitStep_xor_even (a b : Nat) (hb : b % 2 = 0) :
    crcBitStep (a ^^^ b) = crcBitStep a ^^^ b / 2 := by
  have hpar : (a ^^^ b) % 2 = a % 2 := by
    have h := xor_mod_pow_two a b 1
    rw [Nat.pow_one] at h
    rw [h, hb, Nat.xor_zero]
  have hdiv : (a ^^^ b) / 2 = a / 2 ^^^ b / 2 := by
    have h := xor_div_pow_two a b 1
    simpa [Nat.pow_one] using h
  unfold crcBitStep
  rw [hpar, hdiv]
  by_cases h : a % 2 = 1
  · simp [h, Nat.xor_assoc]
  · simp [h]

theorem crcBitStep_iter_xor :
    ∀ (k a b : Nat), b % 2 ^ k = 0 →
      crcBitStep^[k] (a ^^^ b) = crcBitStep^[k] a ^^^ b / 2 ^ k
  | 0, a, b, _ => by simp
  | (k+1), a, b, hb => by
    obtain ⟨m, rfl⟩ := Nat.dvd_of_mod_eq_zero hb
    have h2 : (2 ^ (k + 1) * m) % 2 = 0 := by
      have : 2 ^ (k + 1) * m = 2 * (2 ^ k * m) := by ring
      omega
    have hhalf : (2 ^ (k + 1) * m) / 2 = 2 ^ k * m := by
      have : 2 ^ (k + 1) * m = 2 ^ k * m * 2 := by ring
      omega
    have hmod : (2 ^ k * m) % 2 ^ k = 0 := by
      simp [Nat.mul_mod_right]
    rw [Function.iterate_succ_apply, Function.iterate_succ_apply,
      crcBitStep_xor_even a _ h2, hhalf,
      crcBitStep_iter_xor k (crcBitStep a) (2 ^ k * m) hmod]
    congr 1
    rw [← hhalf]
    rw [Nat.div_div_eq_div_mul]
    congr 1
    ring

theorem crcBitStep_eight (x : Nat) :
    crcBitStep^[8] x = crcTableEntry (x % 256) ^^^ x / 256 := by
  have h256 : (256 : Nat) = 2 ^ 8 := by norm_num
  have hx : (x % 256) ^^^ (x ^^^ x % 256) = x := by
    rw [Nat.xor_comm x (x % 256), ← Nat.xor_assoc, Nat.xor_self, Nat.zero_xor]
  have hmm : x % 256 % 256 = x % 256 := Nat.mod_mod_of_dvd x dvd_rfl
  have hmod : (x ^^^ x % 256) % 2 ^ 8 = 0 := by
    rw [xor_mod_pow_two, ← h256, hmm, Nat.xor_self]
  have hdiv : (x ^^^ x % 256) / 2 ^ 8 = x / 256 := by
    rw [xor_div_pow_two]
    have hz : x % 256 / 2 ^ 8 = 0 :=
      Nat.div_eq_of_lt (by rw [← h256]; exact Nat.mod_lt x (by norm_num))
    rw [hz, Nat.xor_zero, ← h256]
  calc crcBitStep^[8] x
      = crcBitStep^[8] ((x % 256) ^^^ (x ^^^ x % 256)) := by rw [hx]
    _ = crcBitStep^[8] (x % 256) ^^^ (x ^^^ x % 256) / 2 ^ 8 :=
        crcBitStep_iter_xor 8 _ _ hmod
    _ = crcTableEntry (x % 256) ^^^ x / 256 := by
        rw [hdiv]; rfl

theorem CRC_TABLE_getD (i : Nat) (h : i < 256) :
    CRC_TABLE.getD i 0 = crcTableEntry i := by
  simp [CRC_TABLE, List.getD_eq_getElem?_getD, List.getElem?_map,
    List.getElem?_range, h]

theorem writeByte_eq_ref (crc b : Nat) (hb : b < 256) :
    CRC32.writeByte crc b = refUpdateByte crc b := by
  have h256 : (256 : Nat) = 2 ^ 8 := by norm_num
  have hidx : (crc % 256) ^^^ b < 256 := by
    rw [h256]
    exact Nat.xor_lt_two_pow (by rw [← h256]; exact Nat.mod_lt crc (by norm_num))
      (by rw [← h256]; exact hb)
  have hbmod : b % 256 = b := Nat.mod_eq_of_lt hb
  have hxmod : (crc ^^^ b) % 256 = (crc % 256) ^^^ b := by
    rw [h256, xor_mod_pow_two, ← h256, hbmod]
  have hxdiv : (crc ^^^ b) / 256 = crc / 256 := by
    rw [h256, xor_div_pow_two, ← h256]
    have hz : b / 256 = 0 := Nat.div_eq_of_lt hb
    rw [hz, Nat.xor_zero]
  rw [CRC32.writeByte, refUpdateByte, refStep_eq_crcBitStep, crcBitStep_eight,
    hxmod, hxdiv, CRC_TABLE_getD _ hidx]

theorem write_eq_ref :
    ∀ (s : List Nat), (∀ b ∈ s, b < 256) →
      ∀ crc, CRC32.write crc s = s.foldl refUpdateByte crc
  | [], _, crc => rfl
  | b :: rest, h, crc => by
    have hb : b < 256 := h b (List.mem_cons_self b rest)
    have hr : ∀ x ∈ rest, x < 256 := fun x hx => h x (List.mem_cons_of_mem b hx)
    show CRC32.write (CRC32.writeByte crc b) rest =
      rest.foldl refUpdateByte (refUpdateByte crc b)
    rw [writeByte_eq_ref crc b hb, write_eq_ref rest hr]

/-- C2: for every byte string s, finalize (update (init, s)) is a pure
(hence deterministic) function of s and equals the reference reflected
CRC-32 with generator polynomial 0xEDB88320 over s; the concrete checksums
of "abcd", "123456789" and the empty string are 0xED82CD11, 0xCBF43926 and
0x00000000 respectively. -/
theorem crc32_matches_reference :
    (∀ s : List Nat, (∀ b ∈ s, b < 256) → crc32 s = refCrc32 s) ∧
    crc32 [97, 98, 99, 100] = 0xED82CD11 ∧
    crc32 [49, 50, 51, 52, 53, 54, 55, 56, 57] = 0xCBF43926 ∧
    crc32 [] = 0x00000000 := by
  refine ⟨fun s hs => ?_, by decide, by decide, by decide⟩
  rw [crc32, refCrc32, CRC32.finish, write_eq_ref s hs, CRC32.init]

/-- Witness for C2 at the concrete byte string [97, 98]. -/
theorem crc32_matches_reference_witness :
    crc32 [97, 98] = refCrc32 [97, 98] :=
  crc32_matches_reference.1 [97, 98] (by decide)

/-- C9: updating with concatenated byte strings equals sequential updates,
and chunked updates over any partition of a byte string followed by
finalize give the same checksum as one update over the whole string. -/
theorem crc32_update_append :
    (∀ (st : Nat) (a b : List Nat),
      CRC32.write (CRC32.write st a) b = CRC32.write st (a ++ b)) ∧
    (∀ (parts : List (List Nat)),
      CRC32.finish (parts.foldl CRC32.write CRC32.init) =
        CRC32.finish (CRC32.write CRC32.init parts.flatten)) := by
  have hfold : ∀ (parts : List (List Nat)) (st : Nat),
      parts.foldl CRC32.write st = CRC32.write st parts.flatten := by
    intro parts
    induction parts with
    | nil => intro st; rfl
    | cons p ps ih =>
      intro st
      rw [List.foldl_cons, ih, List.flatten_cons,
        CRC32.write, CRC32.write, CRC32.write, List.foldl_append]
  exact ⟨fun st a b => by rw [CRC32.write, CRC32.write, CRC32.write,
    List.foldl_append], fun parts => by rw [hfold]⟩

/-! ## Date and time (src/time.rs) -/

/-- Calendar date and time, fields as in the Rust struct DateTime
(year is a u16, all other fields are u8, modelled as Nat). -/
structure DateTime where
  year : Nat
  month : Nat
  day : Nat
  hour : Nat
  minute : Nat
  second : Nat
deriving DecidableEq, Repr

/-- The method DateTime.dos_time.  Each u32 shift result is reduced
modulo 2 ^ 32 because the Rust shift operators truncate to 32 bits;
wrapping_shl on the month behaves like a plain shift for amount 21. -/
def DateTime.dos_time (dt : DateTime) : Nat :=
  if dt.year ≥ 1980 then
    (((dt.year - 1980) * 2 ^ 25) % 2 ^ 32) |||
      ((dt.month * 2 ^ 21) % 2 ^ 32) |||
      ((dt.day * 2 ^ 16) % 2 ^ 32) |||
      ((dt.hour * 2 ^ 11) % 2 ^ 32) |||
      ((dt.minute * 2 ^ 5) % 2 ^ 32) |||
      dt.second / 2
  else 0

/-- The function year_from_days with its two fixed iteration arrays
unrolled; returns the pair (year, day count within the year).  The final
u16 casts are modelled by reduction modulo 65536. -/
def year_from_days (days : Nat) : Nat × Nat :=
  if days > 10957 then
    let d0 := days - 10957
    let y1 := d0 / 146097 * 400
    let d1 := d0 % 146097
    let y2 := y1 + d1 / 36524 * 100
    let d2 := d1 % 36524
    let y3 := y2 + d2 / 1461 * 4
    let d3 := d2 % 1461
    let y4 := y3 + d3 / 365
    let d4 := d3 % 365
    ((y4 + 2000) % 65536, d4 % 65536)
  else
    let d0 := days + 3653
    let y1 := d0 / 1461 * 4
    let d1 := d0 % 1461
    let y2 := y1 + d1 / 365
    let d2 := d1 % 365
    ((y2 + 1960) % 65536, (d2 + 1) % 65536)

/-- The function is_leap_year. -/
def is_leap_year (year : Nat) : Bool :=
  (year % 4 == 0) && (year % 100 != 0 || year % 400 == 0)

/-- The constant DAYS_IN_YEAR (February entry 28). -/
def DAYS_IN_YEAR : List Nat := [31, 28, 31, 30, 31, 30, 31, 31, 30, 31, 30, 31]

/-- The constant DAYS_IN_YEAR_OF_LEAP_YEAR (February entry 29). -/
def DAYS_IN_YEAR_OF_LEAP_YEAR : List Nat :=
  [31, 29, 31, 30, 31, 30, 31, 31, 30, 31, 30, 31]

/-- The enumerate-and-find_map loop inside month_from_days: walks the
month table with a running index, subtracting each entry until one
exceeds the remaining day count.  The u8 casts in the result are
modelled by reduction modulo 256; exhausting the table models the
unwrap panic as none. -/
def monthFind : List Nat → Nat → Nat → Option (Nat × Nat)
  | [], _, _ => none
  | cum :: rest, num, days =>
    if days < cum then some ((num + 1) % 256, days % 256)
    else monthFind rest (num + 1) (days - cum)

/-- The function month_from_days.  Note the source selects DAYS_IN_YEAR
(28-day February) when is_leap holds and DAYS_IN_YEAR_OF_LEAP_YEAR
(29-day February) when it does not. -/
def month_from_days (days : Nat) (is_leap : Bool) : Option (Nat × Nat) :=
  monthFind (if is_leap then DAYS_IN_YEAR else DAYS_IN_YEAR_OF_LEAP_YEAR) 0 days

/-- The From impl converting epoch seconds to DateTime; the u8 casts of
second, minute and hour are modelled by reduction modulo 256 (no-ops on
the in-range values). -/
def dateTimeFromEpoch (et : Nat) : Option DateTime :=
  let second := (et % 60) % 256
  let rest := et / 60
  let minute := (rest % 60) % 256
  let rest2 := rest / 60
  let hour := (rest2 % 24) % 256
  let rest3 := rest2 / 24
  let p := year_from_days rest3
  match month_from_days p.2 (is_leap_year p.1) with
  | some md => some ⟨p.1, md.1, md.2, hour, minute, second⟩
  | none => none

/-- C3: the five documented epoch-to-date-to-DOS-timestamp vectors. -/
theorem datetime_vectors :
    dateTimeFromEpoch 24786150 = some ⟨1970, 10, 14, 21, 2, 30⟩ ∧
    (dateTimeFromEpoch 24786150).map DateTime.dos_time = some 0 ∧
    dateTimeFromEpoch 316116310 = some ⟨1980, 1, 7, 18, 5, 10⟩ ∧
    (dateTimeFromEpoch 316116310).map DateTime.dos_time = some 2592933 ∧
    dateTimeFromEpoch 886273502 = some ⟨1998, 2, 1, 19, 5, 2⟩ ∧
    (dateTimeFromEpoch 886273502).map DateTime.dos_time = some 608278689 ∧
    dateTimeFromEpoch 952837441 = some ⟨2000, 3, 12, 5, 4, 1⟩ ∧
    (dateTimeFromEpoch 952837441).map DateTime.dos_time = some 678176896 ∧
    dateTimeFromEpoch 1608905123 = some ⟨2020, 12, 25, 14, 5, 23⟩ ∧
    (dateTimeFromEpoch 1608905123).map DateTime.dos_time = some 1369010347 := by
  decide

/-- Modelled from the spec sentence of C4: a month lookup that selects the
29-day-February table exactly when the year satisfies the leap rule, to be
compared with the lookup of the source. -/
def month_from_days_specSel (days : Nat) (is_leap : Bool) : Option (Nat × Nat) :=
  monthFind (if is_leap then DAYS_IN_YEAR_OF_LEAP_YEAR else DAYS_IN_YEAR) 0 days

/-- Modelled from the spec sentence of C4: the epoch conversion pipeline
with the table selection the claim describes. -/
def dateTimeFromEpochSpecSel (et : Nat) : Option DateTime :=
  let second := (et % 60) % 256
  let rest := et / 60
  let minute := (rest % 60) % 256
  let rest2 := rest / 60
  let hour := (rest2 % 24) % 256
  let rest3 := rest2 / 24
  let p := year_from_days rest3
  match month_from_days_specSel p.2 (is_leap_year p.1) with
  | some md => some ⟨p.1, md.1, md.2, hour, minute, second⟩
  | none => none

/-- C4 counterexample: epoch 952837441 falls in the leap year 2000, yet
the conversion of the source uses the 28-day-February table there and so
disagrees with the selection the claim describes (observable as day 12
versus day 11). -/
theorem month_table_selection_counterexample :
    (dateTimeFromEpoch 952837441).map (fun dt => dt.year) = some 2000 ∧
    is_leap_year 2000 = true ∧
    dateTimeFromEpoch 952837441 ≠ dateTimeFromEpochSpecSel 952837441 ∧
    dateTimeFromEpoch 952837441 = some ⟨2000, 3, 12, 5, 4, 1⟩ ∧
    dateTimeFromEpochSpecSel 952837441 = some ⟨2000, 3, 11, 5, 4, 1⟩ := by
  decide

/-- Modelled from the amended C4 sentence: the conversion pipeline written
with the selection spelled out: the 28-day-February table when the year
satisfies the leap rule and the 29-day-February table when it does not. -/
def dateTimeFromEpochInvSel (et : Nat) : Option DateTime :=
  let second := (et % 60) % 256
  let rest := et / 60
  let minute := (rest % 60) % 256
  let rest2 := rest / 60
  let hour := (rest2 % 24) % 256
  let rest3 := rest2 / 24
  let p := year_from_days rest3
  match monthFind (if is_leap_year p.1 then DAYS_IN_YEAR
    else DAYS_IN_YEAR_OF_LEAP_YEAR) 0 p.2 with
  | some md => some ⟨p.1, md.1, md.2, hour, minute, second⟩
  | none => none

/-- C4 amended: for every epoch input the conversion selects the
28-day-February table exactly when the computed year satisfies the
standard leap rule and the 29-day-February table otherwise, the reverse
of the claimed selection. -/
theorem month_table_selection_amended :
    (∀ et : Nat, dateTimeFromEpoch et = dateTimeFromEpochInvSel et) ∧
    DAYS_IN_YEAR.getD 1 0 = 28 ∧
    DAYS_IN_YEAR_OF_LEAP_YEAR.getD 1 0 = 29 := by
  exact ⟨fun et => rfl, rfl, rfl⟩

/-- Modelled from the spec sentence of C8: zero for years before 1980,
otherwise the 32-bit value of the packed expression
((year-1980) shl 25) or (month shl 21) or (day shl 16) or (hour shl 11)
or (minute shl 5) or (second shr 1). -/
def dosTimeSpec (dt : DateTime) : Nat :=
  if dt.year < 1980 then 0
  else ((dt.year - 1980) * 2 ^ 25 ||| dt.month * 2 ^ 21 ||| dt.day * 2 ^ 16 |||
    dt.hour * 2 ^ 11 ||| dt.minute * 2 ^ 5 ||| dt.second / 2) % 2 ^ 32

theorem or_mod_pow_two (a b k : Nat) :
    (a ||| b) % 2 ^ k = a % 2 ^ k ||| b % 2 ^ k := by
  apply Nat.eq_of_testBit_eq
  intro i
  by_cases h : i < k <;>
    simp [Nat.testBit_or, Nat.testBit_mod_two_pow, h]

/-- C8: on every DateTime whose fields are in the ranges of the Rust
field types (u16 year, u8 otherwise), dos_time returns 0 for years
before 1980 and otherwise the 32-bit packed value stated by the claim. -/
theorem dos_time_bitpacking (dt : DateTime)
    (hy : dt.year < 65536) (hm : dt.month < 256) (hd : dt.day < 256)
    (hh : dt.hour < 256) (hmin : dt.minute < 256) (hs : dt.second < 256) :
    dt.dos_time = dosTimeSpec dt := by
  unfold DateTime.dos_time dosTimeSpec
  by_cases hy1980 : dt.year ≥ 1980
  · rw [if_pos hy1980, if_neg (by omega)]
    rw [or_mod_pow_two, or_mod_pow_two, or_mod_pow_two, or_mod_pow_two,
      or_mod_pow_two]
    rw [Nat.mod_eq_of_lt (show dt.second / 2 < 2 ^ 32 by omega)]
  · rw [if_neg hy1980, if_pos (by omega)]

/-- Witness for C8 at the concrete date 2020-12-25 14:05:23. -/
theorem dos_time_bitpacking_witness :
    DateTime.dos_time ⟨2020, 12, 25, 14, 5, 23⟩ =
      dosTimeSpec ⟨2020, 12, 25, 14, 5, 23⟩ :=
  dos_time_bitpacking ⟨2020, 12, 25, 14, 5, 23⟩ (by decide) (by decide)
    (by decide) (by decide) (by decide) (by decide)

/-! ## Zip archive writer (src/lib.rs)

The output parameter of generic type T implementing Write is modelled as
a sink holding the bytes received so far plus a plan of outcomes for the
coming write_all calls.  The external deflate_bytes_conf function of the
deflate crate is an uninterpreted parameter, and the current time is
passed to add_entry as an already-packed DOS timestamp, making the
environment input explicit. -/

/-- The public enum Level of compression levels. -/
inductive Level
  | raw
  | low
  | default
  | high
deriving DecidableEq

/-- The Compression settings of the external deflate crate. -/
inductive Compression
  | fast
  | default
  | best
deriving DecidableEq

/-- The method Level.method: 0 for Raw and 8 for every deflate level. -/
def Level.method (l : Level) : Nat := if l = Level.raw then 0 else 8

/-- The method Level.compression. -/
def Level.compression : Level → Option Compression
  | Level.raw => none
  | Level.low => some Compression.fast
  | Level.default => some Compression.default
  | Level.high => some Compression.best

/-- The struct ZipEntry. -/
structure ZipEntry where
  method : Nat
  timestamp : Nat
  checksum : Nat
  compressed_size : Nat
  uncompressed_size : Nat
  offset : Nat
  filename : List Nat
deriving DecidableEq

/-- The constructor ZipEntry.new.  The u32 casts of the two content
lengths truncate modulo 2 ^ 32 without any error. -/
def ZipEntry.new (filename uncompressed compressed : List Nat)
    (method offset timestamp : Nat) : ZipEntry :=
  { method := method
    timestamp := timestamp
    checksum := crc32 uncompressed
    compressed_size := compressed.length % 2 ^ 32
    uncompressed_size := uncompressed.length % 2 ^ 32
    offset := offset
    filename := filename }

/-- The error enum: io errors and integer-conversion errors from
src/error.rs, plus the state-check failure add_entry and flush return on
a writer that is not in the Breathe state. -/
inductive ZipError
  | ioError
  | intError
  | attemptWriteClosedArchive
deriving DecidableEq

/-- An output sink: bytes received so far plus a plan of outcomes for the
coming write_all calls.  A true entry makes the next call fail with an io
error before appending anything; a false entry lets it succeed; an
exhausted plan lets every further call succeed. -/
structure Sink where
  buf : List Nat
  plan : List Bool
deriving DecidableEq

/-- One write_all call against the sink. -/
def writeAll (s : Sink) (data : List Nat) : Except ZipError Unit × Sink :=
  match s.plan with
  | [] => (Except.ok (), ⟨s.buf ++ data, []⟩)
  | f :: rest =>
    if f then (Except.error ZipError.ioError, ⟨s.buf, rest⟩)
    else (Except.ok (), ⟨s.buf ++ data, rest⟩)

/-- A sequence of write_all calls, stopping at the first failure just as
the question-mark operator does in the source. -/
def writeChunks (s : Sink) : List (List Nat) → Except ZipError Unit × Sink
  | [] => (Except.ok (), s)
  | c :: cs =>
    match writeAll s c with
    | (Except.ok _, s1) => writeChunks s1 cs
    | (Except.error e, s1) => (Except.error e, s1)

/-- Little-endian byte list of a u16 value. -/
def le16 (n : Nat) : List Nat := [n % 256, n / 256 % 256]

/-- Little-endian byte list of a u32 value. -/
def le32 (n : Nat) : List Nat :=
  [n % 256, n / 256 % 256, n / 2 ^ 16 % 256, n / 2 ^ 24 % 256]

/-- The private enum ZipState. -/
inductive ZipState
  | processing
  | breathe
  | finished
deriving DecidableEq

/-- The struct ZipArchive; the borrowed output is the sink. -/
structure ZipArchive where
  state : ZipState
  sink : Sink
  entries : List ZipEntry
  offset : Nat
deriving DecidableEq

/-- The constructor ZipArchive.new. -/
def ZipArchive.new (output : Sink) : ZipArchive :=
  { state := ZipState.breathe, sink := output, entries := [], offset := 0 }

/-- The eight fixed-field chunks pk0304 writes before converting the name
length. -/
def pk0304Head (e : ZipEntry) : List (List Nat) :=
  [le32 0x04034b50, le16 20, le16 2048, le16 e.method, le32 e.timestamp,
    le32 e.checksum, le32 e.compressed_size, le32 e.uncompressed_size]

/-- The method pk0304: writes the local file header and returns its byte
count 30 plus the name length.  The u16 conversion of the name length
fails with an int error at 65536 bytes or more, after the eight fixed
fields have already been written; the final u32 conversion of the header
length fails when 30 plus the name length reaches 2 ^ 32. -/
def pk0304 (s : Sink) (e : ZipEntry) : Except ZipError Nat × Sink :=
  match writeChunks s (pk0304Head e) with
  | (Except.error err, s1) => (Except.error err, s1)
  | (Except.ok _, s1) =>
    if e.filename.length < 65536 then
      match writeChunks s1 [le16 e.filename.length, le16 0, e.filename] with
      | (Except.error err, s2) => (Except.error err, s2)
      | (Except.ok _, s2) =>
        if 30 + e.filename.length < 2 ^ 32 then
          (Except.ok (30 + e.filename.length), s2)
        else (Except.error ZipError.intError, s2)
    else (Except.error ZipError.intError, s1)

/-- Common body of the two branches of add_entry: build the entry, write
the local header, advance the offset by the header length, write the body,
advance the offset by the truncated body length, push the entry. -/
def addEntryCore (a : ZipArchive) (name content body : List Nat)
    (method ts : Nat) : Except ZipError Unit × ZipArchive :=
  let entry := ZipEntry.new name content body method a.offset ts
  match pk0304 a.sink entry with
  | (Except.error err, s1) =>
    (Except.error err, { a with state := ZipState.processing, sink := s1 })
  | (Except.ok r, s1) =>
    let off1 := (a.offset + r) % 2 ^ 32
    match writeAll s1 body with
    | (Except.error err, s2) =>
      (Except.error err,
        { state := ZipState.processing, sink := s2,
          entries := a.entries, offset := off1 })
    | (Except.ok _, s2) =>
      (Except.ok (),
        { state := ZipState.breathe, sink := s2,
          entries := a.entries ++ [entry],
          offset := (off1 + body.length % 2 ^ 32) % 2 ^ 32 })

/-- The method add_entry; d stands for the external deflate_bytes_conf
function and ts for the packed DOS timestamp of the current time. -/
def addEntry (d : Compression → List Nat → List Nat) (a : ZipArchive)
    (name content : List Nat) (level : Level) (ts : Nat) :
    Except ZipError Unit × ZipArchive :=
  if a.state ≠ ZipState.breathe then
    (Except.error ZipError.attemptWriteClosedArchive, a)
  else
    match level.compression with
    | some comp => addEntryCore a name content (d comp content) level.method ts
    | none => addEntryCore a name content content level.method ts

/-- The nine fixed-field chunks pk0102 writes before converting the name
length. -/
def pk0102Head (e : ZipEntry) : List (List Nat) :=
  [le32 0x02014b50, le16 20, le16 20, le16 2048, le16 e.method,
    le32 e.timestamp, le32 e.checksum, le32 e.compressed_size,
    le32 e.uncompressed_size]

/-- The method pk0102: writes one central directory header and returns
its byte count 46 plus the name length.  The name length is written as a
u32 whose conversion fails only at 2 ^ 32 bytes. -/
def pk0102 (s : Sink) (e : ZipEntry) : Except ZipError Nat × Sink :=
  match writeChunks s (pk0102Head e) with
  | (Except.error err, s1) => (Except.error err, s1)
  | (Except.ok _, s1) =>
    if e.filename.length < 2 ^ 32 then
      match writeChunks s1 [le32 e.filename.length, le16 0, le16 0, le16 0,
          le16 0, le16 0, le32 e.offset, e.filename] with
      | (Except.error err, s2) => (Except.error err, s2)
      | (Except.ok _, s2) =>
        if 46 + e.filename.length < 2 ^ 32 then
          (Except.ok (46 + e.filename.length), s2)
        else (Except.error ZipError.intError, s2)
    else (Except.error ZipError.intError, s1)

/-- The for loop of flush: one pk0102 call per entry, adding each
returned length to the running offset modulo 2 ^ 32, stopping at the
first failure. -/
def pk0102All (s : Sink) (off : Nat) :
    List ZipEntry → Except ZipError Unit × (Sink × Nat)
  | [] => (Except.ok (), (s, off))
  | e :: es =>
    match pk0102 s e with
    | (Except.ok r, s1) => pk0102All s1 ((off + r) % 2 ^ 32) es
    | (Except.error err, s1) => (Except.error err, (s1, off))

/-- The seven chunks of the end of central directory record. -/
def endRecordChunks (count top sizeCd : Nat) : List (List Nat) :=
  [le32 0x06054b50, le32 0, le16 count, le16 count, le32 sizeCd, le32 top,
    le16 0]

/-- The method flush.  The entries vector is taken (emptied) before the
loop, the count is the entry count truncated to u16, and the central
directory size is the wrapping u32 difference of the offsets. -/
def flush (a : ZipArchive) : Except ZipError Unit × ZipArchive :=
  if a.state ≠ ZipState.breathe then
    (Except.error ZipError.attemptWriteClosedArchive, a)
  else
    match pk0102All a.sink a.offset a.entries with
    | (Except.error err, (s1, off1)) =>
      (Except.error err, ⟨ZipState.processing, s1, [], off1⟩)
    | (Except.ok _, (s1, off1)) =>
      let sizeCd := (off1 + 2 ^ 32 - a.offset) % 2 ^ 32
      match writeChunks s1
          (endRecordChunks (a.entries.length % 65536) a.offset sizeCd) with
      | (Except.error err, s2) =>
        (Except.error err, ⟨ZipState.processing, s2, [], off1⟩)
      | (Except.ok _, s2) => (Except.ok (), ⟨ZipState.finished, s2, [], off1⟩)

/-- The Drop impl: writes the ending data when the writer is still in the
Breathe state (the unwrap panic on a failing write is not modelled, only
which bytes reach the sink). -/
def dropArchive (a : ZipArchive) : ZipArchive :=
  if a.state = ZipState.breathe then (flush a).2 else a

/-- One requested entry: the arguments of one add_entry call, with the
nondeterministic current time made explicit. -/
structure Input where
  name : List Nat
  content : List Nat
  level : Level
  timestamp : Nat
deriving DecidableEq

/-- Body bytes written for an input: the content itself for Raw, the
deflate output otherwise. -/
def bodyOf (d : Compression → List Nat → List Nat) (i : Input) : List Nat :=
  match i.level.compression with
  | some comp => d comp i.content
  | none => i.content

/-- The entry record add_entry builds for an input at a given offset. -/
def mkEntryOf (d : Compression → List Nat → List Nat) (i : Input)
    (off : Nat) : ZipEntry :=
  ZipEntry.new i.name i.content (bodyOf d i) i.level.method off i.timestamp

/-- The bytes of the local file header of an entry. -/
def pk0304Bytes (e : ZipEntry) : List Nat :=
  (pk0304Head e).flatten ++ le16 e.filename.length ++ le16 0 ++ e.filename

/-- The bytes of the central directory header of an entry. -/
def pk0102Bytes (e : ZipEntry) : List Nat :=
  (pk0102Head e).flatten ++ le32 e.filename.length ++ le16 0 ++ le16 0 ++
    le16 0 ++ le16 0 ++ le16 0 ++ le32 e.offset ++ e.filename

/-- The bytes an input contributes to the archive body: local header
followed by body bytes. -/
def localBlockOf (d : Compression → List Nat → List Nat) (i : Input) :
    List Nat :=
  pk0304Bytes (mkEntryOf d i 0) ++ bodyOf d i

/-- Byte count an input contributes to the archive body. -/
def entrySize (d : Compression → List Nat → List Nat) (i : Input) : Nat :=
  30 + i.name.length + (bodyOf d i).length

/-- The entry records of a run of add_entry calls starting at a given
offset, each recording the running offset truncated to u32. -/
def entriesFrom (d : Compression → List Nat → List Nat) (off : Nat) :
    List Input → List ZipEntry
  | [] => []
  | i :: rest =>
    mkEntryOf d i off :: entriesFrom d ((off + entrySize d i) % 2 ^ 32) rest

/-- Total byte count of a list of inputs. -/
def totalSize (d : Compression → List Nat → List Nat)
    (inputs : List Input) : Nat :=
  (inputs.map (entrySize d)).sum

/-- Concatenated local blocks of a list of inputs. -/
def localBlocks (d : Compression → List Nat → List Nat)
    (inputs : List Input) : List Nat :=
  (inputs.map (localBlockOf d)).flatten

/-- One add_entry call keeping only a successful outcome. -/
def addEntryOpt (d : Compression → List Nat → List Nat) (a : ZipArchive)
    (i : Input) : Option ZipArchive :=
  match addEntry d a i.name i.content i.level i.timestamp with
  | (Except.ok _, a1) => some a1
  | (Except.error _, _) => none

/-- A run of add_entry calls, stopping at the first failure. -/
def buildFrom (d : Compression → List Nat → List Nat) (a : ZipArchive) :
    List Input → Option ZipArchive
  | [] => some a
  | i :: rest =>
    match addEntryOpt d a i with
    | some a1 => buildFrom d a1 rest
    | none => none

/-- A run of add_entry calls on a fresh archive with an always-succeeding
sink, where every call must succeed. -/
def build (d : Compression → List Nat → List Nat)
    (inputs : List Input) : Option ZipArchive :=
  buildFrom d (ZipArchive.new ⟨[], []⟩) inputs

theorem writeChunks_nil_plan :
    ∀ (cs : List (List Nat)) (buf : List Nat),
      writeChunks ⟨buf, []⟩ cs = (Except.ok (), ⟨buf ++ cs.flatten, []⟩)
  | [], buf => by simp [writeChunks]
  | c :: cs, buf => by
    rw [writeChunks]
    show writeChunks ⟨buf ++ c, []⟩ cs = _
    rw [writeChunks_nil_plan cs (buf ++ c)]
    simp

theorem pk0304_ok (e : ZipEntry) (buf : List Nat)
    (h : e.filename.length < 65536) :
    pk0304 ⟨buf, []⟩ e =
      (Except.ok (30 + e.filename.length), ⟨buf ++ pk0304Bytes e, []⟩) := by
  rw [pk0304, writeChunks_nil_plan]
  simp only [if_pos h, writeChunks_nil_plan, if_pos (show 30 + e.filename.length < 2 ^ 32 by omega)]
  simp [pk0304Bytes]

theorem pk0304Bytes_off (d : Compression → List Nat → List Nat) (i : Input)
    (off : Nat) : pk0304Bytes (mkEntryOf d i off) = pk0304Bytes (mkEntryOf d i 0) := rfl

theorem addEntryCore_ok (st : ZipState) (buf : List Nat)
    (es : List ZipEntry) (off : Nat) (name content body : List Nat)
    (method ts : Nat) (hname : name.length < 65536) :
    addEntryCore ⟨st, ⟨buf, []⟩, es, off⟩ name content body method ts =
      (Except.ok (), ⟨ZipState.breathe,
        ⟨buf ++ (pk0304Bytes (ZipEntry.new name content body method off ts) ++
          body), []⟩,
        es ++ [ZipEntry.new name content body method off ts],
        (off + (30 + name.length + body.length)) % 2 ^ 32⟩) := by
  have hlen : (ZipEntry.new name content body method off ts).filename.length <
      65536 := hname
  rw [addEntryCore]
  simp only [pk0304_ok _ _ hlen, writeAll, List.append_assoc]
  simp only [Prod.mk.injEq, ZipArchive.mk.injEq, Sink.mk.injEq, ZipEntry.new,
    true_and, and_true]
  omega

theorem addEntry_ok (d : Compression → List Nat → List Nat)
    (a : ZipArchive) (i : Input)
    (hstate : a.state = ZipState.breathe) (hplan : a.sink.plan = [])
    (hname : i.name.length < 65536) :
    addEntry d a i.name i.content i.level i.timestamp =
      (Except.ok (), ⟨ZipState.breathe,
        ⟨a.sink.buf ++ localBlockOf d i, []⟩,
        a.entries ++ [mkEntryOf d i a.offset],
        (a.offset + entrySize d i) % 2 ^ 32⟩) := by
  obtain ⟨st, ⟨buf, plan⟩, es, off⟩ := a
  obtain ⟨nm, ct, lv, ts⟩ := i
  simp only at hstate hplan hname
  subst hstate hplan
  rw [addEntry]
  rw [if_neg (by simp)]
  cases lv
  all_goals
    simp only [Level.compression]
    rw [addEntryCore_ok _ _ _ _ _ _ _ _ _ hname]
    simp [localBlockOf, mkEntryOf, entrySize, bodyOf, Level.compression]
    try rfl

theorem pk0304_err (e : ZipEntry) (buf : List Nat)
    (h : ¬ e.filename.length < 65536) :
    pk0304 ⟨buf, []⟩ e =
      (Except.error ZipError.intError, ⟨buf ++ (pk0304Head e).flatten, []⟩) := by
  rw [pk0304, writeChunks_nil_plan]
  simp [if_neg h]

theorem addEntryCore_err (a : ZipArchive) (name content body : List Nat)
    (method ts : Nat) (hplan : a.sink.plan = [])
    (hn : ¬ name.length < 65536) :
    (addEntryCore a name content body method ts).1 =
      Except.error ZipError.intError := by
  have hsink : a.sink = ⟨a.sink.buf, []⟩ := by
    rw [← hplan]
  have hlen : ¬ (ZipEntry.new name content body method a.offset
      ts).filename.length < 65536 := hn
  rw [addEntryCore, hsink, pk0304_err _ _ hlen]

theorem addEntryOpt_some (d : Compression → List Nat → List Nat)
    (a : ZipArchive) (i : Input) (a1 : ZipArchive)
    (hstate : a.state = ZipState.breathe) (hplan : a.sink.plan = [])
    (h : addEntryOpt d a i = some a1) :
    i.name.length < 65536 ∧ a1.state = ZipState.breathe ∧
      a1.sink.plan = [] ∧ a1.offset < 2 ^ 32 := by
  by_cases hn : i.name.length < 65536
  · rw [addEntryOpt, addEntry_ok d a i hstate hplan hn] at h
    simp only [Option.some.injEq] at h
    subst h
    exact ⟨hn, rfl, rfl, Nat.mod_lt _ (by norm_num)⟩
  · exfalso
    have herr : (addEntry d a i.name i.content i.level i.timestamp).1 =
        Except.error ZipError.intError := by
      rw [addEntry, if_neg (by rw [hstate]; simp)]
      cases hlv : i.level.compression with
      | some comp =>
        simp only [hlv]
        exact addEntryCore_err a i.name i.content (d comp i.content)
          i.level.method i.timestamp hplan hn
      | none =>
        simp only [hlv]
        exact addEntryCore_err a i.name i.content i.content
          i.level.method i.timestamp hplan hn
    rw [addEntryOpt] at h
    rcases hpair : addEntry d a i.name i.content i.level i.timestamp with ⟨r, a2⟩
    rw [hpair] at h
    have hr : r = Except.error ZipError.intError := by
      rw [hpair] at herr
      exact herr
    subst hr
    simp at h

theorem buildFrom_ok (d : Compression → List Nat → List Nat)
    (inputs : List Input) :
    ∀ a : ZipArchive, a.state = ZipState.breathe → a.sink.plan = [] →
      a.offset < 2 ^ 32 → (∀ i ∈ inputs, i.name.length < 65536) →
      buildFrom d a inputs = some
        ⟨ZipState.breathe, ⟨a.sink.buf ++ localBlocks d inputs, []⟩,
          a.entries ++ entriesFrom d a.offset inputs,
          (a.offset + totalSize d inputs) % 2 ^ 32⟩ := by
  induction inputs with
  | nil =>
    intro a hs hp ho _
    obtain ⟨st, ⟨buf, plan⟩, es, off⟩ := a
    simp only at hs hp ho
    subst hs hp
    simp [buildFrom, localBlocks, entriesFrom, totalSize]
    omega
  | cons i rest ih =>
    intro a hs hp ho hn
    have h1 := addEntry_ok d a i hs hp (hn i (List.mem_cons_self i rest))
    have ha : addEntryOpt d a i = some
        ⟨ZipState.breathe, ⟨a.sink.buf ++ localBlockOf d i, []⟩,
          a.entries ++ [mkEntryOf d i a.offset],
          (a.offset + entrySize d i) % 2 ^ 32⟩ := by
      rw [addEntryOpt, h1]
    rw [buildFrom, ha]
    show buildFrom d ⟨ZipState.breathe, ⟨a.sink.buf ++ localBlockOf d i, []⟩,
        a.entries ++ [mkEntryOf d i a.offset],
        (a.offset + entrySize d i) % 2 ^ 32⟩ rest = _
    rw [ih _ rfl rfl (Nat.mod_lt _ (by norm_num))
      (fun j hj => hn j (List.mem_cons_of_mem i hj))]
    have hbuf : (a.sink.buf ++ localBlockOf d i) ++ localBlocks d rest =
        a.sink.buf ++ localBlocks d (i :: rest) := by
      simp [localBlocks, List.append_assoc]
    have hent : (a.entries ++ [mkEntryOf d i a.offset]) ++
        entriesFrom d ((a.offset + entrySize d i) % 2 ^ 32) rest =
        a.entries ++ entriesFrom d a.offset (i :: rest) := by
      simp [entriesFrom]
    have hoff2 : ((a.offset + entrySize d i) % 2 ^ 32 + totalSize d rest) %
        2 ^ 32 = (a.offset + totalSize d (i :: rest)) % 2 ^ 32 := by
      simp only [totalSize, List.map_cons, List.sum_cons]
      omega
    rw [hbuf, hent, hoff2]

theorem buildFrom_names (d : Compression → List Nat → List Nat)
    (inputs : List Input) :
    ∀ (a a1 : ZipArchive), a.state = ZipState.breathe → a.sink.plan = [] →
      buildFrom d a inputs = some a1 →
      ∀ i ∈ inputs, i.name.length < 65536 := by
  induction inputs with
  | nil => intro a a1 _ _ _ i hi; simp at hi
  | cons i rest ih =>
    intro a a1 hs hp h j hj
    rw [buildFrom] at h
    cases hopt : addEntryOpt d a i with
    | none => rw [hopt] at h; simp at h
    | some a2 =>
      rw [hopt] at h
      have h2 : buildFrom d a2 rest = some a1 := h
      obtain ⟨hname, hstate2, hplan2, _⟩ :=
        addEntryOpt_some d a i a2 hs hp hopt
      rcases List.mem_cons.mp hj with rfl | hj2
      · exact hname
      · exact ih a2 a1 hstate2 hplan2 h2 j hj2

theorem entriesFrom_offsets (d : Compression → List Nat → List Nat) :
    ∀ (inputs : List Input) (off : Nat), off < 2 ^ 32 →
      (entriesFrom d off inputs).map ZipEntry.offset =
        (List.range inputs.length).map
          (fun k => (off + totalSize d (inputs.take k)) % 2 ^ 32)
  | [], off, ho => by simp [entriesFrom]
  | i :: rest, off, ho => by
    rw [entriesFrom, List.map_cons,
      entriesFrom_offsets d rest _ (Nat.mod_lt _ (by norm_num))]
    rw [List.length_cons, List.range_succ_eq_map, List.map_cons,
      List.map_map]
    have hhead : (mkEntryOf d i off).offset = off := rfl
    have hzero : (off + totalSize d ((i :: rest).take 0)) % 2 ^ 32 = off := by
      simp [totalSize]
      omega
    rw [hhead, hzero]
    have hfun : ∀ k ∈ List.range rest.length,
        ((off + entrySize d i) % 2 ^ 32 + totalSize d (rest.take k)) % 2 ^ 32 =
          ((fun k => (off + totalSize d ((i :: rest).take k)) % 2 ^ 32) ∘
            Nat.succ) k := by
      intro k _
      show ((off + entrySize d i) % 2 ^ 32 + totalSize d (rest.take k)) %
          2 ^ 32 = (off + totalSize d ((i :: rest).take (k + 1))) % 2 ^ 32
      have htake : (i :: rest).take (k + 1) = i :: rest.take k := rfl
      rw [htake]
      simp only [totalSize, List.map_cons, List.sum_cons]
      omega
    rw [List.map_congr_left hfun]

theorem entriesFrom_filenames (d : Compression → List Nat → List Nat) :
    ∀ (inputs : List Input) (off : Nat),
      (entriesFrom d off inputs).map ZipEntry.filename =
        inputs.map Input.name
  | [], _ => rfl
  | i :: rest, off => by
    rw [entriesFrom, List.map_cons, List.map_cons,
      entriesFrom_filenames d rest _]
    rfl

theorem pk0102_ok (e : ZipEntry) (buf : List Nat)
    (h : e.filename.length < 65536) :
    pk0102 ⟨buf, []⟩ e =
      (Except.ok (46 + e.filename.length), ⟨buf ++ pk0102Bytes e, []⟩) := by
  rw [pk0102, writeChunks_nil_plan]
  simp only [if_pos (show e.filename.length < 2 ^ 32 by omega),
    writeChunks_nil_plan,
    if_pos (show 46 + e.filename.length < 2 ^ 32 by omega)]
  simp [pk0102Bytes]

/-- Byte count of the whole central directory of a list of entries. -/
def cdSize (es : List ZipEntry) : Nat :=
  (es.map (fun e => 46 + e.filename.length)).sum

theorem pk0102All_ok :
    ∀ (es : List ZipEntry) (buf : List Nat) (off : Nat), off < 2 ^ 32 →
      (∀ e ∈ es, e.filename.length < 65536) →
      pk0102All ⟨buf, []⟩ off es =
        (Except.ok (), (⟨buf ++ (es.map pk0102Bytes).flatten, []⟩,
          (off + cdSize es) % 2 ^ 32))
  | [], buf, off, ho, _ => by
    simp [pk0102All, cdSize]
    omega
  | e :: es, buf, off, ho, hn => by
    rw [pk0102All, pk0102_ok e buf (hn e (List.mem_cons_self e es))]
    show pk0102All ⟨buf ++ pk0102Bytes e, []⟩
      ((off + (46 + e.filename.length)) % 2 ^ 32) es = _
    rw [pk0102All_ok es _ _ (Nat.mod_lt _ (by norm_num))
      (fun x hx => hn x (List.mem_cons_of_mem e hx))]
    have h1 : (buf ++ pk0102Bytes e) ++ (es.map pk0102Bytes).flatten =
        buf ++ ((e :: es).map pk0102Bytes).flatten := by
      simp [List.append_assoc]
    have h2 : ((off + (46 + e.filename.length)) % 2 ^ 32 + cdSize es) %
        2 ^ 32 = (off + cdSize (e :: es)) % 2 ^ 32 := by
      simp only [cdSize, List.map_cons, List.sum_cons]
      omega
    rw [h1, h2]

/-- Bytes of the end of central directory record. -/
def endRecordBytes (count top sizeCd : Nat) : List Nat :=
  (endRecordChunks count top sizeCd).flatten

theorem flush_ok (a : ZipArchive) (hs : a.state = ZipState.breathe)
    (hp : a.sink.plan = []) (ho : a.offset < 2 ^ 32)
    (hn : ∀ e ∈ a.entries, e.filename.length < 65536) :
    flush a = (Except.ok (), ⟨ZipState.finished,
      ⟨a.sink.buf ++ (a.entries.map pk0102Bytes).flatten ++
        endRecordBytes (a.entries.length % 65536) a.offset
          (cdSize a.entries % 2 ^ 32), []⟩,
      [], (a.offset + cdSize a.entries) % 2 ^ 32⟩) := by
  have hsink : a.sink = ⟨a.sink.buf, []⟩ := by
    rw [← hp]
  rw [flush, if_neg (by rw [hs]; simp), hsink,
    pk0102All_ok a.entries _ _ ho hn]
  have hsz : ((a.offset + cdSize a.entries) % 2 ^ 32 + 2 ^ 32 - a.offset) %
      2 ^ 32 = cdSize a.entries % 2 ^ 32 := by
    omega
  simp only [hsz, writeChunks_nil_plan]
  simp [endRecordBytes, List.append_assoc]

/-- A deflate stand-in used in concrete examples: passes the content
through unchanged (never consulted for Raw entries). -/
def dId : Compression → List Nat → List Nat := fun _ content => content

/-- Byte positions of the local file headers of the inputs, truncated to
u32: position of header k is the total size of the preceding blocks. -/
def offsetsOf (d : Compression → List Nat → List Nat)
    (inputs : List Input) : List Nat :=
  (List.range inputs.length).map (fun k => totalSize d (inputs.take k) % 2 ^ 32)

theorem pk0304Bytes_length (e : ZipEntry) :
    (pk0304Bytes e).length = 30 + e.filename.length := by
  simp [pk0304Bytes, pk0304Head, le16, le32]
  omega

/-- C1 (amended): after a sequence of successful addEntry calls followed
by a successful finalize, the archive body is the concatenation of the
local blocks in call order, the central directory headers are emitted in
exactly insertion order (the list of entry records equals the inputs in
order, and the bytes appended by finalize are their pk0102 headers in that
order followed by the end record), and the offset field recorded for each
entry equals the byte position of its local header truncated to u32 —
equal to the exact position whenever the archive stays below 2 ^ 32 bytes;
the truncation is forced by the counterexample.  Entries with empty names
are covered by the general statement. -/
theorem central_directory_order_and_offsets
    (d : Compression → List Nat → List Nat) (inputs : List Input)
    (a a1 : ZipArchive) (hb : build d inputs = some a)
    (hf : flush a = (Except.ok (), a1)) :
    a.entries = entriesFrom d 0 inputs ∧
    a.sink.buf = localBlocks d inputs ∧
    a.entries.map ZipEntry.offset = offsetsOf d inputs ∧
    a1.sink.buf = a.sink.buf ++ (a.entries.map pk0102Bytes).flatten ++
      endRecordBytes (a.entries.length % 65536) a.offset
        (cdSize a.entries % 2 ^ 32) := by
  have hnames := buildFrom_names d inputs (ZipArchive.new ⟨[], []⟩) a rfl rfl hb
  have hbo := buildFrom_ok d inputs (ZipArchive.new ⟨[], []⟩) rfl rfl
    (by show (0 : Nat) < 2 ^ 32; norm_num) hnames
  rw [build, hbo] at hb
  simp only [Option.some.injEq] at hb
  subst hb
  have hent : ((ZipArchive.new ⟨[], []⟩).entries ++
      entriesFrom d (ZipArchive.new ⟨[], []⟩).offset inputs) =
      entriesFrom d 0 inputs := by
    simp [ZipArchive.new]
  have hbuf : ((ZipArchive.new ⟨[], []⟩).sink.buf ++ localBlocks d inputs) =
      localBlocks d inputs := by
    simp [ZipArchive.new]
  have hoffs : (entriesFrom d 0 inputs).map ZipEntry.offset =
      offsetsOf d inputs := by
    rw [entriesFrom_offsets d inputs 0 (by norm_num), offsetsOf]
    exact List.map_congr_left (fun k _ => by rw [Nat.zero_add])
  have hen : ∀ e ∈ entriesFrom d 0 inputs, e.filename.length < 65536 := by
    intro e he
    have hmem : e.filename ∈ (entriesFrom d 0 inputs).map ZipEntry.filename :=
      List.mem_map_of_mem _ he
    rw [entriesFrom_filenames] at hmem
    obtain ⟨i, hi, hfn⟩ := List.mem_map.mp hmem
    rw [← hfn]
    exact hnames i hi
  refine ⟨by rw [hent], by rw [hbuf], by rw [hent, hoffs], ?_⟩
  rw [flush_ok _ rfl rfl (Nat.mod_lt _ (by norm_num))
    (by rw [hent]; exact hen)] at hf
  simp only [Prod.mk.injEq, true_and] at hf
  rw [← hf]

/-- Concrete inputs for the C1 witness: a one-byte-named entry with a
two-byte body and an entry with an empty name, both Raw. -/
def wInputs : List Input :=
  [⟨[97], [104, 105], Level.raw, 0⟩, ⟨[], [], Level.raw, 0⟩]

/-- Witness for C1 at two concrete entries (one with an empty name): the
recorded offsets are 0 and 33 = 30 + 1 + 2. -/
theorem central_directory_order_and_offsets_witness :
    ((build dId wInputs).getD (ZipArchive.new ⟨[], []⟩)).entries.map
      ZipEntry.offset = [0, 33] := by
  have hb : build dId wInputs =
      some ((build dId wInputs).getD (ZipArchive.new ⟨[], []⟩)) := by rfl
  have hf : flush ((build dId wInputs).getD (ZipArchive.new ⟨[], []⟩)) =
      (Except.ok (),
        (flush ((build dId wInputs).getD (ZipArchive.new ⟨[], []⟩))).2) := by
    rfl
  have h := central_directory_order_and_offsets dId wInputs _ _ hb hf
  rw [h.2.2.1]
  decide

/-- The 2 ^ 32 zero bytes of the oversized counterexample entry.  Kept
behind a definition so proofs only ever use its length. -/
def bigContent : List Nat := List.replicate (2 ^ 32) 0

theorem bigContent_length : bigContent.length = 2 ^ 32 := by
  rw [bigContent, List.length_replicate]

/-- First counterexample input for C1: a Raw entry of 2 ^ 32 zero bytes
with an empty name. -/
def cexBig : Input := ⟨[], bigContent, Level.raw, 0⟩

/-- Second counterexample input for C1: an empty Raw entry. -/
def cexEmpty : Input := ⟨[], [], Level.raw, 0⟩

/-- C1 counterexample: after a successful 2 ^ 32 byte first entry, the
second local header begins at byte position 2 ^ 32 + 30 of the archive
(the archive length after the first call), but the offset recorded for it
and written in its central directory header is 30, the position truncated
to u32. -/
theorem central_directory_order_and_offsets_counterexample :
    (build dId [cexBig, cexEmpty]).map
      (fun a => a.entries.map ZipEntry.offset) = some [0, 30] ∧
    (build dId [cexBig]).map (fun a => a.sink.buf.length) =
      some (2 ^ 32 + 30) ∧
    (30 : Nat) ≠ 2 ^ 32 + 30 := by
  have hn2 : ∀ i ∈ [cexBig, cexEmpty], i.name.length < 65536 := by
    intro i hi
    rcases List.mem_cons.mp hi with rfl | hi2
    · decide
    · rcases List.mem_cons.mp hi2 with rfl | hi3
      · decide
      · simp at hi3
  have hn1 : ∀ i ∈ [cexBig], i.name.length < 65536 := by
    intro i hi
    rcases List.mem_cons.mp hi with rfl | hi2
    · decide
    · simp at hi2
  have hb2 := buildFrom_ok dId [cexBig, cexEmpty] (ZipArchive.new ⟨[], []⟩)
    rfl rfl (by show (0 : Nat) < 2 ^ 32; norm_num) hn2
  have hb1 := buildFrom_ok dId [cexBig] (ZipArchive.new ⟨[], []⟩)
    rfl rfl (by show (0 : Nat) < 2 ^ 32; norm_num) hn1
  have hsz : entrySize dId cexBig = 30 + 2 ^ 32 := by
    rw [entrySize]
    have h1 : cexBig.name.length = 0 := rfl
    have h2 : bodyOf dId cexBig = bigContent := rfl
    rw [h1, h2, bigContent_length]
  refine ⟨?_, ?_, by norm_num⟩
  · rw [build, hb2]
    have hoffv : (ZipArchive.new ⟨[], []⟩).offset = 0 := rfl
    have hne : (ZipArchive.new ⟨[], []⟩).entries = [] := rfl
    have hproj : ∀ (i : Input) (off : Nat), (mkEntryOf dId i off).offset =
        off := fun _ _ => rfl
    simp only [Option.map_some', Option.some.injEq, hne, hoffv,
      List.nil_append, entriesFrom, List.map_cons, List.map_nil, hproj, hsz]
    have harith : (0 + (30 + 2 ^ 32)) % 2 ^ 32 = 30 := by omega
    rw [harith]
  · rw [build, hb1]
    show some (((ZipArchive.new ⟨[], []⟩).sink.buf ++
      localBlocks dId [cexBig]).length) = some (2 ^ 32 + 30)
    have hlen : (localBlockOf dId cexBig).length = 30 + 2 ^ 32 := by
      rw [localBlockOf, List.length_append, pk0304Bytes_length]
      have hfn : (mkEntryOf dId cexBig 0).filename.length = 0 := rfl
      have hbody : bodyOf dId cexBig = bigContent := rfl
      rw [hfn, hbody, bigContent_length]
    have hloc : localBlocks dId [cexBig] = localBlockOf dId cexBig ++ [] := rfl
    have h0 : (ZipArchive.new ⟨[], []⟩).sink.buf.length = 0 := rfl
    rw [hloc, List.length_append, List.length_append, hlen, h0,
      List.length_nil]
    norm_num

theorem mkEntryOf_sizes (d : Compression → List Nat → List Nat)
    (i : Input) (off : Nat) :
    (mkEntryOf d i off).compressed_size = (bodyOf d i).length % 2 ^ 32 ∧
    (mkEntryOf d i off).uncompressed_size = i.content.length % 2 ^ 32 :=
  ⟨rfl, rfl⟩

/-- C5: passing 2 ^ 32 bytes of content does not fail with a size-limit
error; add_entry succeeds and records compressed and uncompressed sizes
silently truncated to 0 = 2 ^ 32 mod 2 ^ 32, contradicting both the claim
and the crate documentation of the size-limit error.  The input is the
entry with empty name and 2 ^ 32 zero bytes of Raw content. -/
theorem size_fields_truncated :
    cexBig.name = [] ∧ cexBig.content.length = 2 ^ 32 ∧
    (addEntry dId (ZipArchive.new ⟨[], []⟩) cexBig.name cexBig.content
      cexBig.level cexBig.timestamp).1 = Except.ok () ∧
    ((addEntry dId (ZipArchive.new ⟨[], []⟩) cexBig.name cexBig.content
      cexBig.level cexBig.timestamp).2.entries.map
      (fun e => (e.compressed_size, e.uncompressed_size))) = [(0, 0)] := by
  have h := addEntry_ok dId (ZipArchive.new ⟨[], []⟩) cexBig rfl rfl
    (by decide)
  have hc : cexBig.content = bigContent := rfl
  refine ⟨rfl, by rw [hc, bigContent_length], ?_, ?_⟩
  · rw [h]
  · rw [h]
    have hne : (ZipArchive.new ⟨[], []⟩).entries = [] := rfl
    rw [hne, List.nil_append, List.map_cons, List.map_nil]
    have hbody : bodyOf dId cexBig = bigContent := rfl
    rw [(mkEntryOf_sizes dId cexBig (ZipArchive.new ⟨[], []⟩).offset).1,
      (mkEntryOf_sizes dId cexBig (ZipArchive.new ⟨[], []⟩).offset).2,
      hbody, hc, bigContent_length]
    norm_num

theorem pk0304_ok_val (s : Sink) (e : ZipEntry) (r : Nat) (s1 : Sink)
    (h : pk0304 s e = (Except.ok r, s1)) : r = 30 + e.filename.length := by
  rw [pk0304] at h
  split at h
  · simp at h
  · split at h
    · split at h
      · simp at h
      · split at h
        · simp only [Prod.mk.injEq, Except.ok.injEq] at h
          exact h.1.symm
        · simp at h
    · simp at h

theorem addEntryCore_ioerror (a : ZipArchive)
    (name content body : List Nat) (method ts : Nat) (a1 : ZipArchive)
    (h : addEntryCore a name content body method ts =
      (Except.error ZipError.ioError, a1)) :
    a1.offset = a.offset ∨
      a1.offset = (a.offset + (30 + name.length)) % 2 ^ 32 := by
  rw [addEntryCore] at h
  split at h
  · simp only [Prod.mk.injEq] at h
    left
    rw [← h.2]
  · rename_i r s1 heq
    split at h
    · rename_i err s2 heq2
      simp only [Prod.mk.injEq] at h
      right
      rw [← h.2]
      have hr : r = 30 + (ZipEntry.new name content body method a.offset
          ts).filename.length := pk0304_ok_val _ _ _ _ heq
      have hfn : (ZipEntry.new name content body method a.offset
          ts).filename.length = name.length := rfl
      rw [hfn] at hr
      show (a.offset + r) % 2 ^ 32 = _
      rw [hr]
    · simp at h

/-- C6 (amended): an add_entry call that fails with an io error leaves the
running offset either unchanged (when the failing write happened inside the
local header) or advanced by exactly the header length 30 plus the name
length (when the header writes all succeeded and the body write failed);
the counterexample shows the second case really occurs, so the offset is
not always unchanged as the claim states. -/
theorem addEntry_ioerror_offset (d : Compression → List Nat → List Nat)
    (a : ZipArchive) (name content : List Nat) (level : Level) (ts : Nat)
    (a1 : ZipArchive)
    (h : addEntry d a name content level ts =
      (Except.error ZipError.ioError, a1)) :
    a1.offset = a.offset ∨
      a1.offset = (a.offset + (30 + name.length)) % 2 ^ 32 := by
  rw [addEntry] at h
  by_cases hs : a.state ≠ ZipState.breathe
  · rw [if_pos hs] at h
    simp only [Prod.mk.injEq] at h
    exact absurd h.1 (by simp)
  · rw [if_neg hs] at h
    cases hlv : level.compression with
    | some comp =>
      rw [hlv] at h
      exact addEntryCore_ioerror a name content (d comp content)
        level.method ts a1 h
    | none =>
      rw [hlv] at h
      exact addEntryCore_ioerror a name content content level.method ts a1 h

/-- The write plan of the C6 counterexample sink: the eleven header
writes succeed and the twelfth call, the body write, fails. -/
def cexPlan : List Bool :=
  [false, false, false, false, false, false, false, false, false, false,
    false, true]

/-- C6 counterexample: with a sink whose first eleven writes succeed and
whose twelfth (the body write) fails, add_entry returns an io error yet
the running offset has advanced from 0 to 30, the length of the local
header already written, so the offset is not left unchanged as the claim
states. -/
theorem addEntry_ioerror_offset_counterexample :
    (addEntry dId (ZipArchive.new ⟨[], cexPlan⟩) [] [] Level.raw 0).1 =
      Except.error ZipError.ioError ∧
    (addEntry dId (ZipArchive.new ⟨[], cexPlan⟩) [] [] Level.raw 0).2.offset
      = 30 ∧
    (ZipArchive.new ⟨[], cexPlan⟩).offset = 0 ∧ (30 : Nat) ≠ 0 :=
  ⟨rfl, rfl, rfl, by decide⟩

/-- Witness for C6 (amended) at a sink that fails on the very first
write: the offset is unchanged, matching the left disjunct. -/
theorem addEntry_ioerror_offset_witness :
    (addEntry dId (ZipArchive.new ⟨[], [true]⟩) [] [] Level.raw 0).2.offset =
      (ZipArchive.new ⟨[], [true]⟩).offset ∨
    (addEntry dId (ZipArchive.new ⟨[], [true]⟩) [] [] Level.raw 0).2.offset =
      ((ZipArchive.new ⟨[], [true]⟩).offset + (30 + ([] : List Nat).length)) %
        2 ^ 32 :=
  addEntry_ioerror_offset dId (ZipArchive.new ⟨[], [true]⟩) [] [] Level.raw 0
    _ rfl

theorem flush_ok_state (a a1 : ZipArchive)
    (h : flush a = (Except.ok (), a1)) : a1.state = ZipState.finished := by
  rw [flush] at h
  split at h
  · simp at h
  · split at h
    · simp at h
    · dsimp only at h
      split at h
      · simp at h
      · simp only [Prod.mk.injEq] at h
        rw [← h.2]

/-- C7: a writer on which flush already succeeded is in the Finished
state; every subsequent add_entry or flush call on it fails with the
closed-archive error and returns the writer completely unchanged, its
sink included, so zero additional bytes reach the sink; in particular a
second finalize fails instead of emitting a second end record. -/
theorem closed_archive_rejects (d : Compression → List Nat → List Nat)
    (a0 a1 : ZipArchive) (h : flush a0 = (Except.ok (), a1))
    (name content : List Nat) (level : Level) (ts : Nat) :
    addEntry d a1 name content level ts =
      (Except.error ZipError.attemptWriteClosedArchive, a1) ∧
    flush a1 = (Except.error ZipError.attemptWriteClosedArchive, a1) := by
  have hs := flush_ok_state a0 a1 h
  constructor
  · rw [addEntry, if_pos (by rw [hs]; simp)]
  · rw [flush, if_pos (by rw [hs]; simp)]

/-- Witness for C7: finalize a fresh writer, then both calls fail with
the closed-archive error and leave it unchanged. -/
theorem closed_archive_rejects_witness :
    addEntry dId (flush (ZipArchive.new ⟨[], []⟩)).2 [] [] Level.raw 0 =
      (Except.error ZipError.attemptWriteClosedArchive,
        (flush (ZipArchive.new ⟨[], []⟩)).2) ∧
    flush (flush (ZipArchive.new ⟨[], []⟩)).2 =
      (Except.error ZipError.attemptWriteClosedArchive,
        (flush (ZipArchive.new ⟨[], []⟩)).2) :=
  closed_archive_rejects dId (ZipArchive.new ⟨[], []⟩) _ rfl [] [] Level.raw 0

theorem addEntryCore_err_state (a : ZipArchive)
    (name content body : List Nat) (method ts : Nat) (e : ZipError)
    (a1 : ZipArchive)
    (h : addEntryCore a name content body method ts = (Except.error e, a1)) :
    a1.state = ZipState.processing := by
  rw [addEntryCore] at h
  split at h
  · simp only [Prod.mk.injEq] at h
    rw [← h.2]
  · split at h
    · simp only [Prod.mk.injEq] at h
      rw [← h.2]
    · simp at h

theorem addEntry_err_state (d : Compression → List Nat → List Nat)
    (a : ZipArchive) (name content : List Nat) (level : Level) (ts : Nat)
    (e : ZipError) (a1 : ZipArchive) (hs : a.state = ZipState.breathe)
    (h : addEntry d a name content level ts = (Except.error e, a1)) :
    a1.state = ZipState.processing := by
  rw [addEntry, if_neg (by rw [hs]; simp)] at h
  cases hlv : level.compression with
  | some comp =>
    rw [hlv] at h
    exact addEntryCore_err_state a name content (d comp content)
      level.method ts e a1 h
  | none =>
    rw [hlv] at h
    exact addEntryCore_err_state a name content content level.method ts e a1 h

theorem flush_err_state (a : ZipArchive) (e : ZipError) (a1 : ZipArchive)
    (hs : a.state = ZipState.breathe)
    (h : flush a = (Except.error e, a1)) : a1.state = ZipState.processing := by
  rw [flush, if_neg (by rw [hs]; simp)] at h
  split at h
  · simp only [Prod.mk.injEq] at h
    rw [← h.2]
  · dsimp only at h
    split at h
    · simp only [Prod.mk.injEq] at h
      rw [← h.2]
    · simp at h

/-- C10 (amended): an add_entry or flush call that was attempting work
(writer in Breathe state) and returns an error leaves the writer in the
Processing state; a Processing writer rejects every subsequent add_entry
and flush with the closed-archive error, returning the archive and its
sink completely unchanged, and drop performs no implicit finalize on it,
so no further bytes are ever written.  The claim additionally asserted
the writer always sits in Processing after any error; the counterexample
shows an error returned on an already Finished writer leaves it
Finished. -/
theorem error_state_permanence :
    (∀ (d : Compression → List Nat → List Nat) (a : ZipArchive)
      (name content : List Nat) (level : Level) (ts : Nat) (e : ZipError)
      (a1 : ZipArchive), a.state = ZipState.breathe →
      addEntry d a name content level ts = (Except.error e, a1) →
      a1.state = ZipState.processing) ∧
    (∀ (a : ZipArchive) (e : ZipError) (a1 : ZipArchive),
      a.state = ZipState.breathe → flush a = (Except.error e, a1) →
      a1.state = ZipState.processing) ∧
    (∀ (d : Compression → List Nat → List Nat) (a : ZipArchive)
      (name content : List Nat) (level : Level) (ts : Nat),
      a.state = ZipState.processing →
      addEntry d a name content level ts =
        (Except.error ZipError.attemptWriteClosedArchive, a)) ∧
    (∀ a : ZipArchive, a.state = ZipState.processing →
      flush a = (Except.error ZipError.attemptWriteClosedArchive, a)) ∧
    (∀ a : ZipArchive, a.state = ZipState.processing →
      dropArchive a = a) := by
  refine ⟨fun d a n c l ts e a1 hs h =>
      addEntry_err_state d a n c l ts e a1 hs h,
    fun a e a1 hs h => flush_err_state a e a1 hs h, ?_, ?_, ?_⟩
  · intro d a n c l ts hp
    rw [addEntry, if_pos (by rw [hp]; simp)]
  · intro a hp
    rw [flush, if_pos (by rw [hp]; simp)]
  · intro a hp
    rw [dropArchive, if_neg (by rw [hp]; simp)]

/-- C10 counterexample: a successfully finalized writer is Finished; a
further add_entry call on it returns an error, yet the writer stays
Finished rather than remaining in the Busy (Processing) state the claim
names. -/
theorem error_state_permanence_counterexample :
    (addEntry dId (flush (ZipArchive.new ⟨[], []⟩)).2 [] [] Level.raw 0).1 =
      Except.error ZipError.attemptWriteClosedArchive ∧
    (addEntry dId (flush (ZipArchive.new ⟨[], []⟩)).2 [] [] Level.raw
      0).2.state = ZipState.finished ∧
    ZipState.finished ≠ ZipState.processing :=
  ⟨rfl, rfl, by decide⟩

/-- Witness for C10 (amended) on a concrete Processing writer. -/
theorem error_state_permanence_witness :
    addEntry dId ⟨ZipState.processing, ⟨[], []⟩, [], 0⟩ [] [] Level.raw 0 =
      (Except.error ZipError.attemptWriteClosedArchive,
        ⟨ZipState.processing, ⟨[], []⟩, [], 0⟩) ∧
    dropArchive ⟨ZipState.processing, ⟨[], []⟩, [], 0⟩ =
      ⟨ZipState.processing, ⟨[], []⟩, [], 0⟩ :=
  ⟨error_state_permanence.2.2.1 dId _ [] [] Level.raw 0 rfl,
    error_state_permanence.2.2.2.2 _ rfl⟩
